import Mathlib

/-!
# Verification of `compare.py` (file-similarity batch tool)

Shallow embedding of `src/compare.py` and proofs about its specification.

Python strings are modelled as `List Char`, Python `int` as `ℕ`/`ℤ`,
Python `float` results as exact rationals `ℚ` (the quantities involved are
small exact fractions; rounding is modelled as rounding to the nearest
thousandth).  Fallible code returns `Option`/`Except`.

The `ast.parse`/docstring-strip/`ast.unparse` stage of `prepare_text`
(lines 75-79) calls into the CPython standard library, whose parser is not
part of this repository; it is modelled as an explicit environment function
`Env.ast : List Char → Option (List Char)` (with `none` standing for a
`SyntaxError`).  Concrete instantiations used in counterexamples are taken
from the actual behaviour of CPython's `ast` module on the documented
inputs, noted at each instantiation.
-/

namespace Compare

/-! ## The Levenshtein DP from `levenshtein_distance` (lines 89-124)

The Python function keeps a rolling row `distances`.  For each character
`c2` of (the longer string) `s2` it builds `distances_`, starting with
`[i2 + 1]`, and for each `i1, c1` in `enumerate(s1)` appends
`distances[i1]` if `c1 == c2`, else
`1 + min(distances[i1], distances[i1 + 1], distances_[-1])`.

`innerLoop` walks `s1` together with the still-unread part of the previous
row, so its list head is `distances[i1]`, the next entry is
`distances[i1 + 1]`, and `last` carries `distances_[-1]`.  It returns the
appended values (everything after the initial `i2 + 1`). -/

/-- Inner loop of `levenshtein_distance` (lines 114-119). -/
def innerLoop (c2 : Char) : List Char → List Nat → Nat → List Nat
  | [], _, _ => []
  | c1 :: s1, distances, last =>
    let d0 := distances.headD 0
    let d1 := distances.tail.headD 0
    let v := if c1 = c2 then d0 else 1 + min d0 (min d1 last)
    v :: innerLoop c2 s1 distances.tail v

/-- Outer loop of `levenshtein_distance` (lines 109-121): one iteration per
character of `s2`, replacing the row `distances` by
`[i2 + 1] ++ inner-loop appends`.  (The `spinner.tick()` call writes to
stdout only; it is modelled in `tickedRun` below and shown not to influence
the returned row.) -/
def outerLoop (s1 : List Char) : List Char → Nat → List Nat → List Nat
  | [], _, distances => distances
  | c2 :: s2, i2, distances =>
    outerLoop s1 s2 (i2 + 1) ((i2 + 1) :: innerLoop c2 s1 distances (i2 + 1))

/-- Function `levenshtein_distance` (lines 89-124): swap so `s1` is the shorter
string, start from `distances = range(len(s1) + 1)`, run the DP, and return
`distances[-1]`. -/
def levenshtein_distance (s1 s2 : List Char) : Nat :=
  let p := if s1.length > s2.length then (s2, s1) else (s1, s2)
  (outerLoop p.1 p.2 0 (List.range (p.1.length + 1))).getLastD 0

/-! ## Mathematical reference: recursive edit distance and edit scripts -/

/-- The textbook Levenshtein recursion (unit costs).  In the mismatch case
the three `min` arguments are ordered exactly as the three DP table reads
`distances[i1]`, `distances[i1 + 1]`, `distances_[-1]` of line 119. -/
def lev : List Char → List Char → Nat
  | [], ys => ys.length
  | _ :: xs, [] => xs.length + 1
  | x :: xs, y :: ys =>
    if x = y then lev xs ys
    else 1 + min (lev xs ys) (min (lev (x :: xs) ys) (lev xs (y :: ys)))
termination_by xs ys => xs.length + ys.length
decreasing_by all_goals (simp only [List.length_cons]; omega)

/-- Relation `EditScript s t n`: the string `s` can be transformed into `t` by an
(aligned) sequence of edit operations of total cost `n`, where copying a
character is free and each single-character substitution, deletion and
insertion costs `1`.  This is the standard formalisation of "a sequence of
`n` single-character insertions, deletions and substitutions transforming
`s` into `t`". -/
inductive EditScript : List Char → List Char → Nat → Prop
  | nil : EditScript [] [] 0
  | keep (c : Char) {xs ys n} : EditScript xs ys n →
      EditScript (c :: xs) (c :: ys) n
  | subst (c d : Char) {xs ys n} : EditScript xs ys n →
      EditScript (c :: xs) (d :: ys) (n + 1)
  | del (c : Char) {xs ys n} : EditScript xs ys n →
      EditScript (c :: xs) ys (n + 1)
  | ins (d : Char) {xs ys n} : EditScript xs ys n →
      EditScript xs (d :: ys) (n + 1)

def rowSpec (w : List Char) : List Char → List Char → List Nat
  | v, [] => [lev v w]
  | v, c :: s => lev v w :: rowSpec w (c :: v) s

/-- Python `round(x, 3)` of line 148: Python's float rounding to three decimal
places, modelled exactly over `ℚ` as rounding to the nearest thousandth.
(Python rounds ties to even; the tie-breaking convention is irrelevant to
every property proved here.) -/
def pyRound3 (x : ℚ) : ℚ := (round (x * 1000) : ℤ) / 1000

/-- Lines 147-148 of `compare`, after both files have been read and
normalized: `distance = levenshtein_distance(text1, text2) / max(len(text1),
len(text2))` and `return round(1 - distance, 3)`.  (The unguarded division —
`ZeroDivisionError` when both texts are empty — is modelled at the call site
in `compare`.) -/
def compare_score (text1 text2 : List Char) : ℚ :=
  pyRound3 (1 - (levenshtein_distance text1 text2 : ℚ) /
    (max text1.length text2.length : ℚ))

/-! ## The textual normalization pipeline of `prepare_text` (lines 80-86)

Each definition models one `str.replace` call (left-to-right replacement of
non-overlapping occurrences, resuming after each replacement, exactly
Python's semantics for a non-empty pattern) or `str.lower()`.  Python's
`str.lower` is modelled by `Char.toLower`, which lowercases exactly the
basic-latin letters `A`-`Z`; this suffices for every input appearing in the
development. -/

/-- Line 80: `new_text.replace('"""', '')`. -/
def removeTripleQuote : List Char → List Char
  | [] => []
  | [c1] => [c1]
  | [c1, c2] => [c1, c2]
  | c1 :: c2 :: c3 :: rest =>
    if c1 = '"' ∧ c2 = '"' ∧ c3 = '"' then removeTripleQuote rest
    else c1 :: removeTripleQuote (c2 :: c3 :: rest)

/-- Line 81: `new_text.replace('\n', ' ')` (newlines become spaces). -/
def nlToSpace (s : List Char) : List Char :=
  s.map fun c => if c = '\n' then ' ' else c

/-- Line 82: `new_text.replace('\t', '')`. -/
def removeTab (s : List Char) : List Char :=
  s.filter fun c => c ≠ '\t'

/-- Line 83: `new_text.replace('  ', '')` (one left-to-right pass deleting
non-overlapping pairs of adjacent spaces). -/
def removeDoubleSpace : List Char → List Char
  | [] => []
  | [c1] => [c1]
  | c1 :: c2 :: rest =>
    if c1 = ' ' ∧ c2 = ' ' then removeDoubleSpace rest
    else c1 :: removeDoubleSpace (c2 :: rest)

/-- Line 84: `new_text.replace("'", '"')`; `'\x27'` is the single-quote
character. -/
def quoteToDouble (s : List Char) : List Char :=
  s.map fun c => if c = '\x27' then '"' else c

/-- Line 85: `new_text.lower()` (basic-latin model). -/
def pyLower (s : List Char) : List Char :=
  s.map Char.toLower

/-- Lines 80-85 in order, applied to `new_text = ast.unparse(tree)`. -/
def prepare_text_pipeline (new_text : List Char) : List Char :=
  pyLower (quoteToDouble (removeDoubleSpace (removeTab (nlToSpace (removeTripleQuote new_text)))))

/-- Detects an occurrence of two adjacent spaces. -/
def hasDoubleSpace : List Char → Bool
  | [] => false
  | [_] => false
  | c1 :: c2 :: rest => (c1 == ' ' && c2 == ' ') || hasDoubleSpace (c2 :: rest)

/-- Detects an occurrence of three adjacent double-quote characters. -/
def hasTripleQuote : List Char → Bool
  | [] => false
  | [_] => false
  | [_, _] => false
  | c1 :: c2 :: c3 :: rest =>
    (c1 == '"' && c2 == '"' && c3 == '"') || hasTripleQuote (c2 :: c3 :: rest)

/-! ## The execution environment

`compare.py` interacts with two external facilities that a shallow
embedding must take as parameters:

* the file system, accessed through `open(path).read()` — modelled by
  `fs : List Char → Option (List Char)`, where `none` means the `open` call
  raises `FileNotFoundError`;

* the `ast.parse` / docstring-strip / `ast.unparse` stage of `prepare_text`
  (lines 75-79), which calls CPython's parser (standard-library code, not
  part of this repository) — modelled by
  `ast : List Char → Option (List Char)`, where `none` means `ast.parse`
  raises `SyntaxError`.  Concrete environments used below instantiate `ast`
  only at values CPython actually produces, documented at each point. -/

structure Env where
  fs : List Char → Option (List Char)
  ast : List Char → Option (List Char)

/-- Function `prepare_text` (lines 63-86): the `ast` stage followed by the textual
pipeline of lines 80-85.  `none` models an uncaught `SyntaxError` escaping
from `ast.parse` at line 75. -/
def prepare_text (env : Env) (text : List Char) : Option (List Char) :=
  (env.ast text).map prepare_text_pipeline

/-- Exceptions that can escape from `compare` (lines 127-148). -/
inductive PyErr where
  | fileNotFoundError
  | syntaxError
  | zeroDivisionError
  deriving DecidableEq

/-- Function `compare` (lines 127-148): read and normalize `file1`, then read and
normalize `file2` (in this order — the `with open` blocks of lines 141-146),
then `distance = levenshtein_distance(text1, text2) / max(len(text1),
len(text2))` and `return round(1 - distance, 3)`.  The guard models the
`ZeroDivisionError` Python raises at line 147 when both normalized texts are
empty. -/
def compare (env : Env) (file1 file2 : List Char) : Except PyErr ℚ :=
  match env.fs file1 with
  | none => .error .fileNotFoundError
  | some raw1 =>
    match prepare_text env raw1 with
    | none => .error .syntaxError
    | some text1 =>
      match env.fs file2 with
      | none => .error .fileNotFoundError
      | some raw2 =>
        match prepare_text env raw2 with
        | none => .error .syntaxError
        | some text2 =>
          if max text1.length text2.length = 0 then .error .zeroDivisionError
          else .ok (compare_score text1 text2)

/-- Python whitespace, as used by `str.split()` and `str.strip()`. -/
def pyIsSpace (c : Char) : Bool :=
  c = ' ' || c = '\t' || c = '\n' || c = '\r' || c = '\x0b' || c = '\x0c'

/-- Python `str.strip()`. -/
def pyStrip (s : List Char) : List Char :=
  ((s.dropWhile pyIsSpace).reverse.dropWhile pyIsSpace).reverse

/-- Python `str.split()` (no separator argument): split on runs of whitespace,
discarding empty tokens. -/
def splitWSAux : List Char → List Char → List (List Char)
  | [], acc => if acc = [] then [] else [acc.reverse]
  | c :: rest, acc =>
    if pyIsSpace c then
      if acc = [] then splitWSAux rest [] else acc.reverse :: splitWSAux rest []
    else splitWSAux rest (c :: acc)

def splitWS (s : List Char) : List (List Char) :=
  splitWSAux s []

/-- One iteration of the loop body of `main` (lines 169-181): the `try`
block unpacks `line.split()` into exactly two stripped tokens (a `ValueError`
when the token count differs — caught at line 174) and calls `compare`;
`except ValueError` and `except FileNotFoundError` record the sentinel
`-1.0`.  Any other exception (`SyntaxError`, `ZeroDivisionError`) escapes as
`.error`. -/
def lineResult (env : Env) (line : List Char) : Except PyErr ℚ :=
  match (splitWS line).map pyStrip with
  | [file1, file2] =>
    match compare env file1 file2 with
    | .ok q => .ok q
    | .error .fileNotFoundError => .ok (-1)
    | .error e => .error e
  | _ => .ok (-1)

/-- The loop of `main` over all input lines (lines 168-181), collecting
`results` in input order; an exception escaping one iteration aborts the
whole run (no output file is written in that case). -/
def mainLoop (env : Env) : List (List Char) → Except PyErr (List ℚ)
  | [] => .ok []
  | line :: rest =>
    match lineResult env line with
    | .ok q =>
      match mainLoop env rest with
      | .ok qs => .ok (q :: qs)
      | .error e => .error e
    | .error e => .error e

/-- Function `main` (lines 151-185), with the input file already read and split into
its lines (`file.readlines()` at line 166).  On success the returned list is
serialized one value per line to the output file (line 183); on an uncaught
exception the run aborts and no output file is written. -/
def main (env : Env) (lines : List (List Char)) : Except PyErr (List ℚ) :=
  mainLoop env lines

/-- Environment for the C6 counterexample, with the values CPython
(3.11) produces.  For the source `1\n1` the docstring-removal walk turns
both bare `1` statements into the constant `''`; `ast.unparse` renders the
first (in module-docstring position) as the triple-quoted empty string of
six double quotes and the second as two single quotes, giving six double
quotes, a newline, and two single quotes.  For the text consisting of a
space and two double quotes, `ast.parse` raises `IndentationError` (a
`SyntaxError` subclass, hence `none`): a top-level expression must not be
indented. -/
def envC6 : Env :=
  ⟨fun _ => none, fun t =>
    if t = "1\n1".data then some ("\"\"\"\"\"\"\n\x27\x27".data)
    else none⟩

/-- An environment whose `ast` stage fixes every text (CPython's
`unparse ∘ parse` is the identity on already-canonical sources such as the
bare-name module `AB`, and the docstring walk does not touch `Name`
nodes). -/
def envIdAst : Env := ⟨fun _ => none, fun t => some t⟩

/-- Environment for the C7 counterexample: CPython's
`ast.unparse(ast.parse("a = 1"))` is `"a = 1"` (assignments are untouched by
the docstring walk and already in canonical form). -/
def envC7 : Env :=
  ⟨fun _ => none, fun t => if t = "a = 1".data then some t else none⟩

/-- Environment for the C4 counterexample and for C1/C10: the file `a`
exists and holds the text `!!`, which is not valid Python (CPython's
`ast.parse("!!")` raises `SyntaxError`, hence `ast` yields `none`); every
other path — in particular `b` — is missing. -/
def envBadParse : Env :=
  ⟨fun p => if p = "a".data then some ("!!".data) else none, fun _ => none⟩

/-- Environment for the C1 witness, realising the spec's Scenario C: two
real files `f1`, `f2` both holding the already-canonical source `x = 1`
(CPython's `unparse ∘ parse` fixes it), all other paths missing. -/
def envOkFiles : Env :=
  ⟨fun p =>
    if p = "f1".data then some ("x = 1".data)
    else if p = "f2".data then some ("x = 1".data)
    else none,
   fun t => if t = "x = 1".data then some t else none⟩

/-- A three-line batch: one valid pair, one malformed line, one line with a
missing file. -/
def threeLineBatch : List (List Char) :=
  ["f1 f2".data, "bad".data, "f1 missing".data]

/-- Environment for the C9 witness: files `e1` and `e2` are empty, and
CPython's `ast` stage maps the empty module to the empty string. -/
def envEmptyFiles : Env :=
  ⟨fun p =>
    if p = "e1".data then some [] else if p = "e2".data then some [] else none,
   fun t => if t = [] then some [] else none⟩

/-! ## Claim C8: the Spinner (lines 9-60)

The spinner writes to stdout and reads the wall clock; nothing it computes
flows back into the DP.  To prove this we re-run the outer loop of
`levenshtein_distance` together with the spinner state and its console
output, parameterised by an arbitrary clock `clock : ℕ → ℚ` supplying the
`time.time()` values (index 0 for the constructor at line 108, index
`i2 + 1` for the tick at the end of outer iteration `i2`), and show the
returned distance equals `levenshtein_distance` for every clock. -/

/-- The four cursor glyphs of `__spinning_cursor` (lines 29-35), replayed
by position. -/
def spinnerGlyphs : List Char := ['|', '/', '-', '\\']

/-- The `Spinner` attributes set in `__init__` (lines 14-27); the generator
is replaced by its position `spin_index`. -/
structure Spinner where
  overall_count : ℕ
  delay : ℚ
  prev_spin : ℚ
  prev_length : ℕ
  counter : ℕ
  spin_index : ℕ

/-- Constructor call `Spinner(overall_count)` at line 108: `delay = 0.1`, `_prev_spin =
time.time()` (the value `now`), counters zeroed. -/
def Spinner.init (overall_count : ℕ) (now : ℚ) : Spinner :=
  { overall_count := overall_count, delay := 1 / 10, prev_spin := now,
    prev_length := 0, counter := 0, spin_index := 0 }

/-- Method `tick` (lines 37-52): bump the counter; if less than `delay` has passed
since the last redraw, write nothing; otherwise write backspaces erasing the
previous drawing, then the next glyph, a space, the percentage
`counter / overall_count * 100` formatted with no decimals (`round` models
`f"{...:.0f}"`; the tie-breaking convention is irrelevant here), and `%`.
`'\x08'` is the backspace character `'\b'`. -/
def Spinner.tick (s : Spinner) (now : ℚ) : Spinner × List Char :=
  let s' := { s with counter := s.counter + 1 }
  if now - s'.prev_spin < s'.delay then (s', [])
  else
    let erase := List.replicate s'.prev_length '\x08'
    let progress : ℚ := (s'.counter : ℚ) / (s'.overall_count : ℚ) * 100
    let new_spinner := spinnerGlyphs.getD (s'.spin_index % 4) '|' :: ' ' ::
      ((toString (round progress)).data ++ ['%'])
    let s'' := { s' with prev_spin := now, prev_length := new_spinner.length, spin_index := s'.spin_index + 1 }
    (s'', erase ++ new_spinner)

/-- Method `finish` (lines 54-60): erase the last drawing. -/
def Spinner.finish (s : Spinner) : List Char :=
  List.replicate s.prev_length '\x08'

/-- The outer loop of `levenshtein_distance` re-run together with the
spinner: each iteration updates the row exactly as `outerLoop` does and then
calls `spinner.tick()` (line 121).  Returns the final row, the final spinner
state, and the accumulated console output. -/
def tickedOuterLoop (s1 : List Char) (clock : ℕ → ℚ) :
    List Char → ℕ → List Nat → Spinner → List Nat × Spinner × List Char
  | [], _, distances, sp => (distances, sp, [])
  | c2 :: s2, i2, distances, sp =>
    let distances' := (i2 + 1) :: innerLoop c2 s1 distances (i2 + 1)
    let t := sp.tick (clock (i2 + 1))
    let r := tickedOuterLoop s1 clock s2 (i2 + 1) distances' t.1
    (r.1, r.2.1, t.2 ++ r.2.2)

/-- Run of `levenshtein_distance` with its console side channel: the returned
distance paired with everything the spinner wrote (ticks plus the final
`finish` at line 122). -/
def tickedRun (clock : ℕ → ℚ) (s1 s2 : List Char) : ℕ × List Char :=
  let p := if s1.length > s2.length then (s2, s1) else (s1, s2)
  let r := tickedOuterLoop p.1 clock p.2 0 (List.range (p.1.length + 1))
    (Spinner.init p.2.length (clock 0))
  (r.1.getLastD 0, r.2.2 ++ r.2.1.finish)

/-! ## Theorems -/

@[simp] theorem lev_nil_left (ys : List Char) : lev [] ys = ys.length := by
  simp [lev]

@[simp] theorem lev_nil_right (xs : List Char) : lev xs [] = xs.length := by
  cases xs <;> simp [lev]

theorem lev_cons_cons (x : Char) (xs : List Char) (y : Char) (ys : List Char) :
    lev (x :: xs) (y :: ys) =
      if x = y then lev xs ys
      else 1 + min (lev xs ys) (min (lev (x :: xs) ys) (lev xs (y :: ys))) := by
  simp [lev]

/-- Substitution bound: editing the heads costs at most one. -/
theorem lev_cons_cons_le (x : Char) (xs : List Char) (y : Char) (ys : List Char) :
    lev (x :: xs) (y :: ys) ≤ lev xs ys + 1 := by
  rw [lev_cons_cons]
  split
  · omega
  · have := Nat.min_le_left (lev xs ys) (min (lev (x :: xs) ys) (lev xs (y :: ys)))
    omega

/-- Deletion and right-insertion bounds, proved simultaneously by strong
induction on the total length. -/
theorem lev_del_bounds :
    ∀ n xs ys, xs.length + ys.length ≤ n →
      (∀ c : Char, lev (c :: xs) ys ≤ lev xs ys + 1) ∧
      (∀ d : Char, lev xs ys ≤ lev xs (d :: ys) + 1) := by
  intro n
  induction n with
  | zero =>
    intro xs ys h
    obtain ⟨rfl, rfl⟩ : xs = [] ∧ ys = [] := by
      cases xs <;> cases ys <;> simp_all
    refine ⟨fun c => ?_, fun d => ?_⟩ <;> simp
  | succ n ih =>
    intro xs ys h
    constructor
    · intro c
      cases ys with
      | nil => simp
      | cons d ys' =>
        rw [lev_cons_cons]
        split
        · -- c = d: use the right-deletion bound at (xs, ys')
          have hd := (ih xs ys' (by simp at h ⊢; omega)).2 d
          omega
        · have h3 : min (lev xs ys') (min (lev (c :: xs) ys') (lev xs (d :: ys')))
              ≤ lev xs (d :: ys') :=
            (Nat.min_le_right _ _).trans (Nat.min_le_right _ _)
          omega
    · intro d
      cases xs with
      | nil => simp only [lev_nil_left, List.length_cons]; omega
      | cons c xs' =>
        rw [lev_cons_cons (x := c) (y := d)]
        split
        · -- c = d: use the deletion bound at (xs', ys)
          have hc := (ih xs' ys (by simp at h ⊢; omega)).1 c
          subst_eqs
          omega
        · -- mismatch: the minimum is at least each summand minus the bounds
          have h1 := (ih xs' ys (by simp at h ⊢; omega)).1 c
          have h2 := (ih xs' ys (by simp at h ⊢; omega)).2 d
          have hmin : min (lev xs' ys) (min (lev (c :: xs') ys) (lev xs' (d :: ys)))
              + 2 ≥ lev (c :: xs') ys := by
            rcases Nat.le_total (lev xs' ys)
                (min (lev (c :: xs') ys) (lev xs' (d :: ys))) with hle | hle
            · rw [Nat.min_eq_left hle]; omega
            · rw [Nat.min_eq_right hle]
              rcases Nat.le_total (lev (c :: xs') ys) (lev xs' (d :: ys)) with
                hle' | hle'
              · rw [Nat.min_eq_left hle']; omega
              · rw [Nat.min_eq_right hle']; omega
          omega

theorem lev_del_le (c : Char) (xs ys : List Char) :
    lev (c :: xs) ys ≤ lev xs ys + 1 :=
  (lev_del_bounds (xs.length + ys.length) xs ys le_rfl).1 c

/-- Commutativity of the recursive edit distance. -/
theorem lev_comm : ∀ xs ys : List Char, lev xs ys = lev ys xs := by
  have key : ∀ n xs ys, xs.length + ys.length ≤ n → lev xs ys = lev ys xs := by
    intro n
    induction n with
    | zero =>
      intro xs ys h
      obtain ⟨rfl, rfl⟩ : xs = [] ∧ ys = [] := by
        cases xs <;> cases ys <;> simp_all
      rfl
    | succ n ih =>
      intro xs ys h
      cases xs with
      | nil => simp
      | cons x xs' =>
        cases ys with
        | nil => simp
        | cons y ys' =>
          rw [lev_cons_cons, lev_cons_cons]
          have h1 := ih xs' ys' (by simp at h ⊢; omega)
          have h2 := ih (x :: xs') ys' (by simp at h ⊢; omega)
          have h3 := ih xs' (y :: ys') (by simp at h ⊢; omega)
          by_cases hxy : x = y
          · simp [hxy, h1]
          · rw [if_neg hxy, if_neg (fun hyx => hxy hyx.symm), h1, h2, h3]
            omega
  exact fun xs ys => key (xs.length + ys.length) xs ys le_rfl

/-- Insertion bound, from the deletion bound by commutativity. -/
theorem lev_ins_le (d : Char) (xs ys : List Char) :
    lev xs (d :: ys) ≤ lev xs ys + 1 := by
  rw [lev_comm xs (d :: ys), lev_comm xs ys]
  exact lev_del_le d ys xs

/-- There is an edit script realising the recursive edit distance. -/
theorem editScript_lev : ∀ xs ys : List Char, EditScript xs ys (lev xs ys) := by
  have nilScript : ∀ ys : List Char, EditScript [] ys ys.length := by
    intro ys
    induction ys with
    | nil => exact .nil
    | cons d ys ih => exact .ins d ih
  have nilScript' : ∀ xs : List Char, EditScript xs [] xs.length := by
    intro xs
    induction xs with
    | nil => exact .nil
    | cons c xs ih => exact .del c ih
  have key : ∀ n xs ys, xs.length + ys.length ≤ n → EditScript xs ys (lev xs ys) := by
    intro n
    induction n with
    | zero =>
      intro xs ys h
      obtain ⟨rfl, rfl⟩ : xs = [] ∧ ys = [] := by
        cases xs <;> cases ys <;> simp_all
      simp only [lev_nil_left, List.length_nil]
      exact .nil
    | succ n ih =>
      intro xs ys h
      cases xs with
      | nil => simpa using nilScript ys
      | cons x xs' =>
        cases ys with
        | nil => simpa using nilScript' (x :: xs')
        | cons y ys' =>
          rw [lev_cons_cons]
          by_cases hxy : x = y
          · subst hxy
            rw [if_pos rfl]
            exact .keep x (ih xs' ys' (by simp at h ⊢; omega))
          · rw [if_neg hxy]
            have e1 := ih xs' ys' (by simp at h ⊢; omega)
            have e2 := ih (x :: xs') ys' (by simp at h ⊢; omega)
            have e3 := ih xs' (y :: ys') (by simp at h ⊢; omega)
            rcases Nat.le_total (lev xs' ys')
                (min (lev (x :: xs') ys') (lev xs' (y :: ys'))) with hle | hle
            · rw [Nat.min_eq_left hle, Nat.add_comm]
              exact .subst x y e1
            · rw [Nat.min_eq_right hle]
              rcases Nat.le_total (lev (x :: xs') ys') (lev xs' (y :: ys')) with
                hle' | hle'
              · rw [Nat.min_eq_left hle', Nat.add_comm]
                exact .ins y e2
              · rw [Nat.min_eq_right hle', Nat.add_comm]
                exact .del x e3
  exact fun xs ys => key (xs.length + ys.length) xs ys le_rfl

/-- Every edit script costs at least the recursive edit distance. -/
theorem lev_le_editScript {xs ys : List Char} {n : Nat}
    (h : EditScript xs ys n) : lev xs ys ≤ n := by
  induction h with
  | nil => simp
  | keep c _ ih =>
    rw [lev_cons_cons, if_pos rfl]
    exact ih
  | subst c d _ ih =>
    rename_i as bs m _
    have := lev_cons_cons_le c as d bs
    omega
  | del c _ ih =>
    rename_i as bs m _
    have := lev_del_le c as bs
    omega
  | ins d _ ih =>
    rename_i as bs m _
    have := lev_ins_le d as bs
    omega

/-! ### Edit scripts are reversal-invariant -/

theorem editScript_keep_snoc (c : Char) {xs ys : List Char} {n : Nat}
    (h : EditScript xs ys n) : EditScript (xs ++ [c]) (ys ++ [c]) n := by
  induction h with
  | nil => exact .keep c .nil
  | keep c' _ ih => exact .keep c' ih
  | subst c' d' _ ih => exact .subst c' d' ih
  | del c' _ ih => exact .del c' ih
  | ins d' _ ih => exact .ins d' ih

theorem editScript_subst_snoc (c d : Char) {xs ys : List Char} {n : Nat}
    (h : EditScript xs ys n) : EditScript (xs ++ [c]) (ys ++ [d]) (n + 1) := by
  induction h with
  | nil => exact .subst c d .nil
  | keep c' _ ih => exact .keep c' ih
  | subst c' d' _ ih => exact .subst c' d' ih
  | del c' _ ih => exact .del c' ih
  | ins d' _ ih => exact .ins d' ih

theorem editScript_del_snoc (c : Char) {xs ys : List Char} {n : Nat}
    (h : EditScript xs ys n) : EditScript (xs ++ [c]) ys (n + 1) := by
  induction h with
  | nil => exact .del c .nil
  | keep c' _ ih => exact .keep c' ih
  | subst c' d' _ ih => exact .subst c' d' ih
  | del c' _ ih => exact .del c' ih
  | ins d' _ ih => exact .ins d' ih

theorem editScript_ins_snoc (d : Char) {xs ys : List Char} {n : Nat}
    (h : EditScript xs ys n) : EditScript xs (ys ++ [d]) (n + 1) := by
  induction h with
  | nil => exact .ins d .nil
  | keep c' _ ih => exact .keep c' ih
  | subst c' d' _ ih => exact .subst c' d' ih
  | del c' _ ih => exact .del c' ih
  | ins d' _ ih => exact .ins d' ih

theorem editScript_reverse {xs ys : List Char} {n : Nat}
    (h : EditScript xs ys n) : EditScript xs.reverse ys.reverse n := by
  induction h with
  | nil => exact .nil
  | keep c _ ih => simpa using editScript_keep_snoc c ih
  | subst c d _ ih => simpa using editScript_subst_snoc c d ih
  | del c _ ih => simpa using editScript_del_snoc c ih
  | ins d _ ih => simpa using editScript_ins_snoc d ih

theorem lev_reverse (xs ys : List Char) :
    lev xs.reverse ys.reverse = lev xs ys := by
  apply Nat.le_antisymm
  · exact lev_le_editScript (editScript_reverse (editScript_lev xs ys))
  · have h := lev_le_editScript
      (editScript_reverse (editScript_lev xs.reverse ys.reverse))
    simpa using h

/-! ### The DP rows compute `lev` on reversed prefixes

`rowSpec w v s` is the row of reference distances for the still-unprocessed
part `s` of the (shorter) string, where `v` is the reversed already-processed
prefix of that string and `w` is the reversed already-processed prefix of the
outer string: its entries are `lev v w, lev (s₀ :: v) w, lev (s₁ :: s₀ :: v) w, …`. -/

theorem rowSpec_head_tail (w v s) :
    rowSpec w v s = lev v w :: (rowSpec w v s).tail := by
  cases s <;> rfl

theorem innerLoop_rowSpec (c2 : Char) (w : List Char) :
    ∀ (s v : List Char),
      innerLoop c2 s (rowSpec w v s) (lev v (c2 :: w)) =
        (rowSpec (c2 :: w) v s).tail := by
  intro s
  induction s with
  | nil => intro v; rfl
  | cons c1 s ih =>
    intro v
    have hd1 : (lev v w :: rowSpec w (c1 :: v) s).tail.headD 0 = lev (c1 :: v) w := by
      rw [List.tail_cons, rowSpec_head_tail]
      rfl
    have hval : (if c1 = c2 then (lev v w :: rowSpec w (c1 :: v) s).headD 0
        else 1 + min ((lev v w :: rowSpec w (c1 :: v) s).headD 0)
          (min ((lev v w :: rowSpec w (c1 :: v) s).tail.headD 0) (lev v (c2 :: w))))
        = lev (c1 :: v) (c2 :: w) := by
      rw [hd1, lev_cons_cons]
      rfl
    show innerLoop c2 (c1 :: s) (rowSpec w v (c1 :: s)) (lev v (c2 :: w)) =
      (rowSpec (c2 :: w) v (c1 :: s)).tail
    rw [show rowSpec w v (c1 :: s) = lev v w :: rowSpec w (c1 :: v) s from rfl]
    simp only [innerLoop]
    rw [hval, List.tail_cons, ih (c1 :: v)]
    show lev (c1 :: v) (c2 :: w) :: (rowSpec (c2 :: w) (c1 :: v) s).tail =
      (lev v (c2 :: w) :: rowSpec (c2 :: w) (c1 :: v) s).tail
    rw [List.tail_cons, ← rowSpec_head_tail]

theorem outerLoop_rowSpec (s1 : List Char) :
    ∀ (s2 w : List Char),
      outerLoop s1 s2 w.length (rowSpec w [] s1) =
        rowSpec (s2.reverse ++ w) [] s1 := by
  intro s2
  induction s2 with
  | nil => intro w; simp [outerLoop]
  | cons c2 s2 ih =>
    intro w
    rw [outerLoop]
    have hlast : w.length + 1 = lev ([] : List Char) (c2 :: w) := by simp
    have hrow : (w.length + 1) :: innerLoop c2 s1 (rowSpec w [] s1) (w.length + 1)
        = rowSpec (c2 :: w) [] s1 := by
      rw [hlast, innerLoop_rowSpec c2 w s1 [], ← rowSpec_head_tail]
    rw [hrow]
    have hlen : w.length + 1 = (c2 :: w).length := rfl
    rw [hlen, ih (c2 :: w)]
    simp

theorem rowSpec_nil_eq_range' :
    ∀ (s v : List Char), rowSpec [] v s = List.range' v.length (s.length + 1) := by
  intro s
  induction s with
  | nil => intro v; simp [rowSpec, List.range']
  | cons c s ih =>
    intro v
    rw [rowSpec, ih (c :: v), List.range'_succ]
    simp [List.range'_succ]

theorem getLastD_default_irrel (l : List Nat) (a b : Nat) (h : l ≠ []) :
    l.getLastD a = l.getLastD b := by
  cases l with
  | nil => exact absurd rfl h
  | cons x t => rw [List.getLastD_cons, List.getLastD_cons]

theorem rowSpec_getLastD (w : List Char) :
    ∀ (s v : List Char), (rowSpec w v s).getLastD 0 = lev (s.reverse ++ v) w := by
  intro s
  induction s with
  | nil => intro v; rfl
  | cons c s ih =>
    intro v
    rw [rowSpec, List.getLastD_cons,
      getLastD_default_irrel _ (lev v w) 0
        (by rw [rowSpec_head_tail]; exact List.cons_ne_nil _ _),
      ih (c :: v)]
    simp

/-- The DP of `levenshtein_distance` computes the recursive edit distance. -/
theorem levenshtein_distance_eq_lev (s1 s2 : List Char) :
    levenshtein_distance s1 s2 = lev s1 s2 := by
  have run : ∀ a b : List Char,
      (outerLoop a b 0 (List.range (a.length + 1))).getLastD 0 = lev a b := by
    intro a b
    have h0 : List.range (a.length + 1) = rowSpec [] [] a := by
      rw [rowSpec_nil_eq_range', List.range_eq_range']
      rfl
    have houter := outerLoop_rowSpec a b []
    simp only [List.length_nil, List.append_nil] at houter
    rw [h0, houter, rowSpec_getLastD]
    simp only [List.append_nil]
    exact lev_reverse a b
  unfold levenshtein_distance
  by_cases h : s1.length > s2.length
  · simp only [if_pos h]
    rw [run s2 s1, lev_comm]
  · simp only [if_neg h]
    exact run s1 s2

/-! ## Range bound and the similarity score of `compare` (lines 147-148) -/

theorem lev_le_max :
    ∀ xs ys : List Char, lev xs ys ≤ max xs.length ys.length := by
  have key : ∀ n xs ys, xs.length + ys.length ≤ n →
      lev xs ys ≤ max xs.length ys.length := by
    intro n
    induction n with
    | zero =>
      intro xs ys h
      obtain ⟨rfl, rfl⟩ : xs = [] ∧ ys = [] := by
        cases xs <;> cases ys <;> simp_all
      simp
    | succ n ih =>
      intro xs ys h
      cases xs with
      | nil => simp
      | cons x xs' =>
        cases ys with
        | nil => simp
        | cons y ys' =>
          rw [lev_cons_cons]
          have h1 := ih xs' ys' (by simp at h ⊢; omega)
          split
          · simp only [List.length_cons]
            omega
          · have hmin := Nat.min_le_left (lev xs' ys')
              (min (lev (x :: xs') ys') (lev xs' (y :: ys')))
            simp only [List.length_cons]
            omega
  exact fun xs ys => key (xs.length + ys.length) xs ys le_rfl

theorem round_mono_of_le {x y : ℚ} (h : x ≤ y) : round x ≤ round y := by
  rw [round_eq, round_eq]
  exact Int.floor_le_floor (by linarith)

theorem pyRound3_mem_unitInterval {x : ℚ} (h0 : 0 ≤ x) (h1 : x ≤ 1) :
    0 ≤ pyRound3 x ∧ pyRound3 x ≤ 1 := by
  have hlo : (0 : ℤ) ≤ round (x * 1000) := by
    have := round_mono_of_le (x := 0) (y := x * 1000) (by nlinarith)
    simpa using this
  have hhi : round (x * 1000) ≤ 1000 := by
    have := round_mono_of_le (x := x * 1000) (y := 1000) (by nlinarith)
    rwa [show ((1000 : ℚ)) = ((1000 : ℕ) : ℚ) by norm_num, round_natCast] at this
  constructor
  · unfold pyRound3
    positivity
  · unfold pyRound3
    rw [div_le_one (by norm_num)]
    exact_mod_cast hhi

/-- C2: for every pair of strings `s1`, `s2`, `levenshtein_distance s1 s2`
is exactly the minimum cost of an edit script (single-character insertions,
deletions and substitutions) transforming `s1` into `s2`: a script of this
cost exists and no script costs less; in particular
`levenshtein_distance "kitten" "sitting" = 3`. -/
theorem levenshtein_distance_min_edits :
    (∀ s1 s2 : List Char,
      EditScript s1 s2 (levenshtein_distance s1 s2) ∧
        ∀ m, EditScript s1 s2 m → levenshtein_distance s1 s2 ≤ m) ∧
    levenshtein_distance "kitten".data "sitting".data = 3 := by
  refine ⟨fun s1 s2 => ?_, by decide⟩
  rw [levenshtein_distance_eq_lev]
  exact ⟨editScript_lev s1 s2, fun m h => lev_le_editScript h⟩

/-- Witness for C2: the inner minimality statement applied to the concrete
pair `("ab", "b")` with the explicit one-deletion script. -/
theorem levenshtein_distance_min_edits_witness :
    levenshtein_distance "ab".data "b".data ≤ 1 :=
  (levenshtein_distance_min_edits.1 "ab".data "b".data).2 1
    (.del 'a' (.keep 'b' .nil))

/-- C5: `0 ≤ levenshtein_distance a b ≤ max (len a) (len b)` (the lower
bound is inherent in the `ℕ`-valued model), and whenever
`max (len a) (len b) > 0` the similarity score
`round(1 - distance / max(len a, len b), 3)` computed by `compare`
(lines 147-148) lies in `[0, 1]`. -/
theorem levenshtein_distance_range_and_score_bounds (a b : List Char) :
    levenshtein_distance a b ≤ max a.length b.length ∧
      (0 < max a.length b.length →
        0 ≤ compare_score a b ∧ compare_score a b ≤ 1) := by
  have hle : levenshtein_distance a b ≤ max a.length b.length := by
    rw [levenshtein_distance_eq_lev]
    exact lev_le_max a b
  refine ⟨hle, fun hpos => ?_⟩
  have hm : (0 : ℚ) < (max a.length b.length : ℕ) := by exact_mod_cast hpos
  have hdm : ((levenshtein_distance a b : ℕ) : ℚ) ≤ ((max a.length b.length : ℕ) : ℚ) := by
    exact_mod_cast hle
  have hd0 : (0 : ℚ) ≤ ((levenshtein_distance a b : ℕ) : ℚ) := by positivity
  have h0 : 0 ≤ 1 - ((levenshtein_distance a b : ℕ) : ℚ) / (max a.length b.length : ℕ) := by
    have hq : ((levenshtein_distance a b : ℕ) : ℚ) / (max a.length b.length : ℕ) ≤ 1 :=
      (div_le_one hm).mpr hdm
    linarith
  have h1 : 1 - ((levenshtein_distance a b : ℕ) : ℚ) / (max a.length b.length : ℕ) ≤ 1 := by
    have hq : (0 : ℚ) ≤ ((levenshtein_distance a b : ℕ) : ℚ) / (max a.length b.length : ℕ) :=
      div_nonneg hd0 hm.le
    linarith
  have := pyRound3_mem_unitInterval h0 h1
  simpa [compare_score] using this

/-- Witness for C5 at the concrete pair `("a", "ab")`. -/
theorem levenshtein_distance_range_and_score_bounds_witness :
    0 < max ("a".data).length ("ab".data).length ∧
      (0 ≤ compare_score "a".data "ab".data ∧ compare_score "a".data "ab".data ≤ 1) :=
  ⟨by decide,
    (levenshtein_distance_range_and_score_bounds "a".data "ab".data).2 (by decide)⟩

/-! ### Character-level facts about `Char.toLower` -/

theorem toLower_self_or_range (c : Char) :
    c.toLower = c ∨ (97 ≤ c.toLower.toNat ∧ c.toLower.toNat ≤ 122) := by
  have hc : c.toLower =
      if c.toNat ≥ 65 ∧ c.toNat ≤ 90 then Char.ofNat (c.toNat + 32) else c := rfl
  by_cases h : c.toNat ≥ 65 ∧ c.toNat ≤ 90
  · right
    rw [hc, if_pos h]
    obtain ⟨h1, h2⟩ := h
    obtain ⟨m, hm⟩ : ∃ m, c.toNat = m := ⟨_, rfl⟩
    rw [hm] at h1 h2 ⊢
    interval_cases m <;> decide
  · left
    rw [hc, if_neg h]

theorem toLower_toLower (c : Char) : c.toLower.toLower = c.toLower := by
  rcases toLower_self_or_range c with h | h
  · rw [h]
    exact h
  · have hfix : c.toLower.toLower =
        if c.toLower.toNat ≥ 65 ∧ c.toLower.toNat ≤ 90 then
          Char.ofNat (c.toLower.toNat + 32)
        else c.toLower := rfl
    rw [hfix, if_neg (by omega)]

theorem eq_of_toLower_eq {a x : Char}
    (hx : ¬(97 ≤ x.toNat ∧ x.toNat ≤ 122)) (h : a.toLower = x) : a = x := by
  rcases toLower_self_or_range a with h' | h'
  · exact h'.symm.trans h
  · rw [h] at h'
    exact absurd h' hx

/-! ### Membership and occurrence lemmas for the pipeline steps -/

theorem mem_removeTripleQuote {x : Char} :
    ∀ {s : List Char}, x ∈ removeTripleQuote s → x ∈ s := by
  intro s
  induction s using removeTripleQuote.induct with
  | case1 => simp [removeTripleQuote]
  | case2 c1 => simp [removeTripleQuote]
  | case3 c1 c2 => simp [removeTripleQuote]
  | case4 c1 c2 c3 rest h ih =>
    rw [removeTripleQuote, if_pos h]
    intro hx
    simp [ih hx]
  | case5 c1 c2 c3 rest h ih =>
    rw [removeTripleQuote, if_neg h]
    intro hx
    rcases List.mem_cons.mp hx with rfl | hx
    · exact List.mem_cons_self _ _
    · simpa using Or.inr (ih hx)

theorem mem_removeDoubleSpace {x : Char} :
    ∀ {s : List Char}, x ∈ removeDoubleSpace s → x ∈ s := by
  intro s
  induction s using removeDoubleSpace.induct with
  | case1 => simp [removeDoubleSpace]
  | case2 c1 => simp [removeDoubleSpace]
  | case3 c1 c2 rest h ih =>
    rw [removeDoubleSpace, if_pos h]
    intro hx
    simp [ih hx]
  | case4 c1 c2 rest h ih =>
    rw [removeDoubleSpace, if_neg h]
    intro hx
    rcases List.mem_cons.mp hx with rfl | hx
    · exact List.mem_cons_self _ _
    · simpa using Or.inr (ih hx)

theorem removeDoubleSpace_head {c : Char} (hc : c ≠ ' ') (rest : List Char) :
    ∃ t, removeDoubleSpace (c :: rest) = c :: t := by
  cases rest with
  | nil => exact ⟨[], rfl⟩
  | cons c2 rest' =>
    rw [removeDoubleSpace, if_neg (fun h => hc h.1)]
    exact ⟨_, rfl⟩

/-- After the `'  ' → ''` pass, no two adjacent spaces remain. -/
theorem hasDoubleSpace_removeDoubleSpace :
    ∀ s : List Char, hasDoubleSpace (removeDoubleSpace s) = false := by
  intro s
  induction s using removeDoubleSpace.induct with
  | case1 => rfl
  | case2 c1 => rfl
  | case3 c1 c2 rest h ih =>
    rw [removeDoubleSpace, if_pos h]
    exact ih
  | case4 c1 c2 rest h ih =>
    rw [removeDoubleSpace, if_neg h]
    by_cases hc1 : c1 = ' '
    · have hc2 : c2 ≠ ' ' := fun hc2 => h ⟨hc1, hc2⟩
      obtain ⟨t, ht⟩ := removeDoubleSpace_head hc2 rest
      rw [ht]
      rw [ht] at ih
      simp only [hasDoubleSpace, ih, Bool.or_false]
      simp [hc2]
    · cases hrds : removeDoubleSpace (c2 :: rest) with
      | nil => rfl
      | cons d t =>
        rw [hrds] at ih
        simp only [hasDoubleSpace, ih, Bool.or_false]
        simp [hc1]

/-- `removeDoubleSpace` is the identity on strings without adjacent spaces. -/
theorem removeDoubleSpace_eq_self :
    ∀ s : List Char, hasDoubleSpace s = false → removeDoubleSpace s = s := by
  intro s
  induction s using removeDoubleSpace.induct with
  | case1 => intro _; rfl
  | case2 c1 => intro _; rfl
  | case3 c1 c2 rest h ih =>
    intro hno
    rw [hasDoubleSpace] at hno
    simp only [Bool.or_eq_false_iff, Bool.and_eq_false_iff, beq_eq_false_iff_ne] at hno
    rcases hno.1 with hc | hc
    · exact absurd h.1 hc
    · exact absurd h.2 hc
  | case4 c1 c2 rest h ih =>
    intro hno
    rw [hasDoubleSpace] at hno
    simp only [Bool.or_eq_false_iff] at hno
    rw [removeDoubleSpace, if_neg h, ih hno.2]

/-- `removeTripleQuote` is the identity on strings without `"""`. -/
theorem removeTripleQuote_eq_self :
    ∀ s : List Char, hasTripleQuote s = false → removeTripleQuote s = s := by
  intro s
  induction s using removeTripleQuote.induct with
  | case1 => intro _; rfl
  | case2 c1 => intro _; rfl
  | case3 c1 c2 => intro _; rfl
  | case4 c1 c2 c3 rest h ih =>
    intro hno
    rw [hasTripleQuote] at hno
    simp only [Bool.or_eq_false_iff, Bool.and_eq_false_iff, beq_eq_false_iff_ne] at hno
    rcases hno.1 with hc | hc
    · rcases hc with hc | hc
      · exact absurd h.1 hc
      · exact absurd h.2.1 hc
    · exact absurd h.2.2 hc
  | case5 c1 c2 c3 rest h ih =>
    intro hno
    rw [hasTripleQuote] at hno
    simp only [Bool.or_eq_false_iff] at hno
    rw [removeTripleQuote, if_neg h, ih hno.2]

/-- A character-wise map that fixes `' '` and reflects `' '` preserves the
absence of adjacent spaces. -/
theorem hasDoubleSpace_map {f : Char → Char} (h1 : f ' ' = ' ')
    (h2 : ∀ c, f c = ' ' → c = ' ') :
    ∀ s : List Char, hasDoubleSpace (s.map f) = hasDoubleSpace s := by
  intro s
  induction s with
  | nil => rfl
  | cons c1 s ih =>
    cases s with
    | nil => rfl
    | cons c2 rest =>
      simp only [List.map_cons] at ih ⊢
      rw [hasDoubleSpace, hasDoubleSpace, ih]
      have hiff : ∀ c : Char, (f c == ' ') = (c == ' ') := by
        intro c
        by_cases hc : c = ' '
        · subst hc
          simp [h1]
        · have : f c ≠ ' ' := fun hfc => hc (h2 c hfc)
          simp [hc, this]
      rw [hiff c1, hiff c2]

theorem map_id_on : ∀ (s : List Char) (f : Char → Char),
    (∀ c ∈ s, f c = c) → s.map f = s := by
  intro s f
  induction s with
  | nil => intro _; rfl
  | cons c s ih =>
    intro h
    rw [List.map_cons, h c (List.mem_cons_self _ _),
      ih fun d hd => h d (List.mem_cons_of_mem _ hd)]

/-! ### Invariants of the pipeline output -/

theorem not_mem_nlToSpace (s : List Char) : '\n' ∉ nlToSpace s := by
  intro h
  obtain ⟨a, _, ha⟩ := List.mem_map.mp h
  by_cases hc : a = '\n' <;> simp [hc] at ha

theorem mem_of_mem_nlToSpace {x : Char} (hx : x ≠ ' ') {s : List Char}
    (h : x ∈ nlToSpace s) : x ∈ s := by
  obtain ⟨a, ha, hfa⟩ := List.mem_map.mp h
  by_cases hc : a = '\n'
  · rw [if_pos hc] at hfa
    exact absurd hfa.symm hx
  · rw [if_neg hc] at hfa
    rwa [hfa] at ha

theorem not_mem_removeTab (s : List Char) : '\t' ∉ removeTab s := by
  intro h
  have := List.mem_filter.mp h
  simp at this

theorem mem_of_mem_removeTab {x : Char} {s : List Char}
    (h : x ∈ removeTab s) : x ∈ s :=
  (List.mem_filter.mp h).1

theorem not_mem_quoteToDouble (s : List Char) : '\x27' ∉ quoteToDouble s := by
  intro h
  obtain ⟨a, _, ha⟩ := List.mem_map.mp h
  by_cases hc : a = '\x27' <;> simp [hc] at ha

theorem mem_of_mem_quoteToDouble {x : Char} (hx : x ≠ '"') {s : List Char}
    (h : x ∈ quoteToDouble s) : x ∈ s := by
  obtain ⟨a, ha, hfa⟩ := List.mem_map.mp h
  by_cases hc : a = '\x27'
  · rw [if_pos hc] at hfa
    exact absurd hfa.symm hx
  · rw [if_neg hc] at hfa
    rwa [hfa] at ha

theorem mem_of_mem_pyLower {x : Char} (hx : ¬(97 ≤ x.toNat ∧ x.toNat ≤ 122))
    {s : List Char} (h : x ∈ pyLower s) : x ∈ s := by
  obtain ⟨a, ha, hfa⟩ := List.mem_map.mp h
  rwa [eq_of_toLower_eq hx hfa] at ha

theorem pipeline_lower {c : Char} {t : List Char}
    (h : c ∈ prepare_text_pipeline t) : c.toLower = c := by
  obtain ⟨a, _, hfa⟩ := List.mem_map.mp h
  rw [← hfa]
  exact toLower_toLower a

theorem pipeline_no_tab (t : List Char) : '\t' ∉ prepare_text_pipeline t := by
  intro h
  unfold prepare_text_pipeline at h
  exact not_mem_removeTab _
    (mem_removeDoubleSpace
      (mem_of_mem_quoteToDouble (by decide)
        (mem_of_mem_pyLower (by decide) h)))

theorem pipeline_no_nl (t : List Char) : '\n' ∉ prepare_text_pipeline t := by
  intro h
  unfold prepare_text_pipeline at h
  exact not_mem_nlToSpace _
    (mem_of_mem_removeTab
      (mem_removeDoubleSpace
        (mem_of_mem_quoteToDouble (by decide)
          (mem_of_mem_pyLower (by decide) h))))

theorem pipeline_no_squote (t : List Char) : '\x27' ∉ prepare_text_pipeline t := by
  intro h
  unfold prepare_text_pipeline at h
  exact not_mem_quoteToDouble _ (mem_of_mem_pyLower (by decide) h)

theorem pipeline_no_doubleSpace (t : List Char) :
    hasDoubleSpace (prepare_text_pipeline t) = false := by
  unfold prepare_text_pipeline pyLower quoteToDouble
  rw [hasDoubleSpace_map (by decide) (fun c hc => eq_of_toLower_eq (by decide) hc),
    hasDoubleSpace_map (by decide)
      (fun c hc => by by_cases h : c = '\x27' <;> simp_all),
    hasDoubleSpace_removeDoubleSpace]

/-! ## Claims C6 and C7: properties of the normalizer -/

theorem pipeline_idempotent_aux (w : List Char)
    (hq : hasTripleQuote (prepare_text_pipeline w) = false) :
    prepare_text_pipeline (prepare_text_pipeline w) = prepare_text_pipeline w := by
  have hnl : '\n' ∉ prepare_text_pipeline w := pipeline_no_nl w
  have htab : '\t' ∉ prepare_text_pipeline w := pipeline_no_tab w
  have hsq : '\x27' ∉ prepare_text_pipeline w := pipeline_no_squote w
  have hds : hasDoubleSpace (prepare_text_pipeline w) = false :=
    pipeline_no_doubleSpace w
  have hlow : ∀ c ∈ prepare_text_pipeline w, c.toLower = c :=
    fun c hc => pipeline_lower hc
  generalize hu : prepare_text_pipeline w = u at hq hnl htab hsq hds hlow
  show pyLower (quoteToDouble (removeDoubleSpace (removeTab (nlToSpace
    (removeTripleQuote u))))) = u
  rw [removeTripleQuote_eq_self u hq]
  rw [show nlToSpace u = u from map_id_on u _ (fun c hc => by
    have hne : c ≠ '\n' := fun h => hnl (h ▸ hc)
    simp [nlToSpace, hne])]
  rw [show removeTab u = u from List.filter_eq_self.mpr (fun c hc => by
    have hne : c ≠ '\t' := fun h => htab (h ▸ hc)
    simp [hne])]
  rw [removeDoubleSpace_eq_self u hds]
  rw [show quoteToDouble u = u from map_id_on u _ (fun c hc => by
    have hne : c ≠ '\x27' := fun h => hsq (h ▸ hc)
    simp [quoteToDouble, hne])]
  exact map_id_on u _ hlow

/-- Counterexample to C6: normalization is not idempotent.  For the source
text `1\n1` the normalizer succeeds, with output a space followed by two
double quotes (line 80 deletes the six-double-quote run, line 81 turns the
newline into a space, line 84 rewrites the remaining single quotes), but
running the normalizer on that output fails outright — its leading space
makes `ast.parse` raise `IndentationError` — so it does not reproduce the
same string. -/
theorem prepare_text_not_idempotent :
    prepare_text envC6 ("1\n1".data) = some (" \"\"".data) ∧
      prepare_text envC6 (" \"\"".data) ≠ some (" \"\"".data) := by
  decide

/-- C6 (amended): the normalizer is idempotent on `x` provided the `ast`
stage fixes the first output `u` and `u` contains no run of three double
quotes (re-normalizing deletes such runs, which line 84 can manufacture; see
the counterexample). -/
theorem prepare_text_idempotent_of_fixed_ast (env : Env) (x u : List Char)
    (h : prepare_text env x = some u) (hast : env.ast u = some u)
    (hq : hasTripleQuote u = false) :
    prepare_text env u = some u := by
  unfold prepare_text at h ⊢
  obtain ⟨w, _, hu⟩ := Option.map_eq_some'.mp h
  subst hu
  rw [hast, Option.map_some', pipeline_idempotent_aux w hq]

/-- Witness for the amended C6 at the concrete input `AB` (whose normal
form is `ab`). -/
theorem prepare_text_idempotent_of_fixed_ast_witness :
    prepare_text envIdAst ("ab".data) = some ("ab".data) :=
  prepare_text_idempotent_of_fixed_ast envIdAst ("AB".data) ("ab".data)
    (by decide) (by decide) (by decide)

/-- Counterexample to C7: the normalizer's output is *not* whitespace-free —
for the input `a = 1` the output is `a = 1` itself, which contains spaces
(line 81 turns newlines into spaces and line 83 only deletes adjacent
*pairs* of spaces). -/
theorem prepare_text_output_retains_space :
    prepare_text envC7 ("a = 1".data) = some ("a = 1".data) ∧
      ' ' ∈ ("a = 1".data) := by
  decide

/-- C7 (amended): every successful normalizer output is lowercased
(`Char.toLower` fixes it), contains no tab, no newline and no single-quote
character, and contains no two adjacent spaces; single spaces may remain
(see the counterexample). -/
theorem prepare_text_output_properties (env : Env) (x u : List Char)
    (h : prepare_text env x = some u) :
    (∀ c ∈ u, c.toLower = c) ∧ '\t' ∉ u ∧ '\n' ∉ u ∧ '\x27' ∉ u ∧
      hasDoubleSpace u = false := by
  unfold prepare_text at h
  obtain ⟨w, _, hu⟩ := Option.map_eq_some'.mp h
  subst hu
  exact ⟨fun c hc => pipeline_lower hc, pipeline_no_tab w, pipeline_no_nl w,
    pipeline_no_squote w, pipeline_no_doubleSpace w⟩

/-- Witness for the amended C7 at the concrete input `a = 1`. -/
theorem prepare_text_output_properties_witness :
    '\t' ∉ ("a = 1".data) ∧ '\n' ∉ ("a = 1".data) ∧ '\x27' ∉ ("a = 1".data) ∧
      hasDoubleSpace ("a = 1".data) = false :=
  (prepare_text_output_properties envC7 ("a = 1".data) ("a = 1".data)
    (by decide)).2

/-! ## Claims C1, C3, C4, C9, C10: the batch runner -/

theorem mainLoop_cons_of_ok {env : Env} {line : List Char}
    {rest : List (List Char)} {q : ℚ} (h : lineResult env line = .ok q) :
    main env (line :: rest) = (main env rest).map fun qs => q :: qs := by
  show mainLoop env (line :: rest) = _
  rw [mainLoop, h]
  cases hm : mainLoop env rest <;> simp [main, hm, Except.map]

theorem mainLoop_cons_of_error {env : Env} {line : List Char}
    {rest : List (List Char)} {e : PyErr} (h : lineResult env line = .error e) :
    main env (line :: rest) = .error e := by
  show mainLoop env (line :: rest) = _
  rw [mainLoop, h]

/-- C3: an input line that does not split into exactly two whitespace
tokens makes the unpacking at line 172 raise `ValueError`, which line 174
catches: the sentinel `-1.0` is recorded for that line (after an error log)
and the loop continues with the remaining lines — the malformed line never
aborts the batch. -/
theorem malformed_line_records_sentinel (env : Env) (line : List Char)
    (rest : List (List Char))
    (h : ((splitWS line).map pyStrip).length ≠ 2) :
    lineResult env line = .ok (-1) ∧
      main env (line :: rest) = (main env rest).map fun qs => -1 :: qs := by
  have hlr : lineResult env line = .ok (-1) := by
    unfold lineResult
    rcases hts : (splitWS line).map pyStrip with _ | ⟨t1, _ | ⟨t2, _ | ⟨t3, ts⟩⟩⟩
    · rfl
    · rfl
    · rw [hts] at h
      simp at h
    · rfl
  exact ⟨hlr, mainLoop_cons_of_ok hlr⟩

/-- Witness for C3: a one-token line followed by an empty batch. -/
theorem malformed_line_records_sentinel_witness :
    lineResult envIdAst ("justone".data) = .ok (-1) ∧
      main envIdAst ["justone".data] =
        (main envIdAst []).map fun qs => -1 :: qs :=
  malformed_line_records_sentinel envIdAst ("justone".data) [] (by decide)

/-- C4 (amended): a missing file is recovered with the sentinel `-1.0` and
the batch continues — provided the `FileNotFoundError` is actually reached:
either the first file is missing, or the first file is read and normalized
successfully and the second file is missing.  (If the first file's content
does not parse, the `SyntaxError` of line 75 fires before the second
`open`; see the counterexample.) -/
theorem missing_file_records_sentinel (env : Env) (line : List Char)
    (rest : List (List Char)) (f1 f2 : List Char)
    (htok : (splitWS line).map pyStrip = [f1, f2])
    (hmiss : env.fs f1 = none ∨
      ∃ r1 u1, env.fs f1 = some r1 ∧ prepare_text env r1 = some u1 ∧
        env.fs f2 = none) :
    lineResult env line = .ok (-1) ∧
      main env (line :: rest) = (main env rest).map fun qs => -1 :: qs := by
  have hcmp : compare env f1 f2 = .error .fileNotFoundError := by
    rcases hmiss with h1 | ⟨r1, u1, h1, hp1, h2⟩
    · unfold compare
      rw [h1]
    · simp only [compare, h1, hp1, h2]
  have hlr : lineResult env line = .ok (-1) := by
    unfold lineResult
    rw [htok]
    show (match compare env f1 f2 with
      | .ok q => Except.ok q
      | .error .fileNotFoundError => .ok (-1)
      | .error e => .error e) = .ok (-1)
    rw [hcmp]
  exact ⟨hlr, mainLoop_cons_of_ok hlr⟩

/-- Counterexample to C4: on the line `a b` the file `b` cannot be opened,
yet no sentinel is recorded and the batch aborts — the first file's
`SyntaxError` fires before the second `open` is attempted, and `main`
catches only `ValueError` and `FileNotFoundError`. -/
theorem missing_file_can_abort :
    envBadParse.fs ("b".data) = none ∧
      main envBadParse ["a b".data] = .error .syntaxError :=
  ⟨rfl, rfl⟩

/-- Witness for the amended C4: first file missing. -/
theorem missing_file_records_sentinel_witness :
    lineResult envBadParse ("nope alsonope".data) = .ok (-1) ∧
      main envBadParse ["nope alsonope".data] =
        (main envBadParse []).map fun qs => -1 :: qs :=
  missing_file_records_sentinel envBadParse ("nope alsonope".data) []
    ("nope".data) ("alsonope".data) (by decide) (Or.inl (by decide))

/-- Counterexample to C1: a batch is *not* guaranteed one output value per
input line — a single line whose first file holds unparseable content makes
the uncaught `SyntaxError` abort the whole run, so no output is produced at
all. -/
theorem batch_can_abort :
    main envBadParse ["a b".data] = .error .syntaxError ∧
      (main envBadParse ["a b".data]).isOk = false :=
  ⟨rfl, rfl⟩

/-- C1 (amended): as long as no line's comparison raises an uncaught
exception — i.e. every per-line failure is the caught `ValueError`
(malformed line) or `FileNotFoundError` (missing file) — `main` produces
exactly one result per input line, in the original input order. -/
theorem main_one_result_per_line (env : Env) (lines : List (List Char))
    (h : ∀ l ∈ lines, (lineResult env l).isOk = true) :
    main env lines = .ok (lines.map fun l => ((lineResult env l).toOption).getD 0) := by
  induction lines with
  | nil => rfl
  | cons line rest ih =>
    have hok := h line (List.mem_cons_self _ _)
    obtain ⟨q, hq⟩ : ∃ q, lineResult env line = .ok q := by
      cases hl : lineResult env line with
      | ok q => exact ⟨q, rfl⟩
      | error e =>
        rw [hl] at hok
        exact absurd hok (by simp [Except.isOk, Except.toBool])
    rw [mainLoop_cons_of_ok hq,
      ih fun l hl => h l (List.mem_cons_of_mem _ hl)]
    simp [Except.map, hq, Except.toOption]

/-- Witness for the amended C1 on the three-line scenario batch. -/
theorem main_one_result_per_line_witness :
    main envOkFiles threeLineBatch =
      .ok (threeLineBatch.map fun l =>
        ((lineResult envOkFiles l).toOption).getD 0) :=
  main_one_result_per_line envOkFiles threeLineBatch (by decide)

/-- C9: when both files of a pair exist and both normalize to the empty
string, the division at line 147 raises `ZeroDivisionError`; `main` catches
only `ValueError` and `FileNotFoundError`, so the whole batch aborts and no
output file is written. -/
theorem empty_pair_zero_division_aborts (env : Env) (line f1 f2 r1 r2 : List Char)
    (rest : List (List Char))
    (htok : (splitWS line).map pyStrip = [f1, f2])
    (h1 : env.fs f1 = some r1) (hp1 : prepare_text env r1 = some [])
    (h2 : env.fs f2 = some r2) (hp2 : prepare_text env r2 = some []) :
    compare env f1 f2 = .error .zeroDivisionError ∧
      main env (line :: rest) = .error .zeroDivisionError := by
  have hcmp : compare env f1 f2 = .error .zeroDivisionError := by
    simp only [compare, h1, hp1, h2, hp2]
    rfl
  have hlr : lineResult env line = .error .zeroDivisionError := by
    unfold lineResult
    rw [htok]
    show (match compare env f1 f2 with
      | .ok q => Except.ok q
      | .error .fileNotFoundError => .ok (-1)
      | .error e => .error e) = .error .zeroDivisionError
    rw [hcmp]
  exact ⟨hcmp, mainLoop_cons_of_error hlr⟩

/-- Witness for C9 on the pair of empty files. -/
theorem empty_pair_zero_division_aborts_witness :
    compare envEmptyFiles ("e1".data) ("e2".data) = .error .zeroDivisionError ∧
      main envEmptyFiles ["e1 e2".data] = .error .zeroDivisionError :=
  empty_pair_zero_division_aborts envEmptyFiles ("e1 e2".data) ("e1".data)
    ("e2".data) [] [] [] (by decide) (by decide) (by decide) (by decide)
    (by decide)

/-- C10: when a referenced file opens but its content does not parse as
Python, `ast.parse` raises `SyntaxError` (line 75); `main` catches only
`ValueError` and `FileNotFoundError`, so the `SyntaxError` propagates, the
batch aborts, and neither a `-1.0` sentinel nor any raw-text fallback is
produced.  This holds whether the invalid file is the first of the pair or
the second (after the first normalizes successfully). -/
theorem invalid_python_syntax_error_aborts (env : Env) (line f1 f2 : List Char)
    (rest : List (List Char))
    (htok : (splitWS line).map pyStrip = [f1, f2])
    (hcase : (∃ r1, env.fs f1 = some r1 ∧ env.ast r1 = none) ∨
      ∃ r1 u1 r2, env.fs f1 = some r1 ∧ prepare_text env r1 = some u1 ∧
        env.fs f2 = some r2 ∧ env.ast r2 = none) :
    compare env f1 f2 = .error .syntaxError ∧
      main env (line :: rest) = .error .syntaxError := by
  have hcmp : compare env f1 f2 = .error .syntaxError := by
    rcases hcase with ⟨r1, h1, ha1⟩ | ⟨r1, u1, r2, h1, hp1, h2, ha2⟩
    · simp only [compare, h1, prepare_text, ha1, Option.map_none']
    · simp only [compare, h1, hp1, h2, prepare_text, ha2, Option.map_none']
      split <;> rfl
  have hlr : lineResult env line = .error .syntaxError := by
    unfold lineResult
    rw [htok]
    show (match compare env f1 f2 with
      | .ok q => Except.ok q
      | .error .fileNotFoundError => .ok (-1)
      | .error e => .error e) = .error .syntaxError
    rw [hcmp]
  exact ⟨hcmp, mainLoop_cons_of_error hlr⟩

/-- Witness for C10 on the unparseable file `a` (content `!!`). -/
theorem invalid_python_syntax_error_aborts_witness :
    compare envBadParse ("a".data) ("b".data) = .error .syntaxError ∧
      main envBadParse ["a b".data] = .error .syntaxError :=
  invalid_python_syntax_error_aborts envBadParse ("a b".data) ("a".data)
    ("b".data) [] (by decide) (Or.inl ⟨"!!".data, by decide, rfl⟩)

theorem tickedOuterLoop_fst (s1 : List Char) (clock : ℕ → ℚ) :
    ∀ (s2 : List Char) (i2 : ℕ) (distances : List Nat) (sp : Spinner),
      (tickedOuterLoop s1 clock s2 i2 distances sp).1 =
        outerLoop s1 s2 i2 distances := by
  intro s2
  induction s2 with
  | nil => intro i2 distances sp; rfl
  | cons c2 s2 ih =>
    intro i2 distances sp
    rw [tickedOuterLoop, outerLoop]
    exact ih (i2 + 1) _ _

/-- C8: the progress reporter has no effect on correctness — for every pair
of strings and every two clock behaviours (hence any number of actual
redraws, which depend on wall-clock timing), the distance returned by the
spinner-instrumented run equals `levenshtein_distance`, and in particular
two runs under different clocks return equal distances. -/
theorem spinner_has_no_effect_on_distance (s1 s2 : List Char)
    (clock clock' : ℕ → ℚ) :
    (tickedRun clock s1 s2).1 = levenshtein_distance s1 s2 ∧
      (tickedRun clock s1 s2).1 = (tickedRun clock' s1 s2).1 := by
  have key : ∀ c : ℕ → ℚ, (tickedRun c s1 s2).1 = levenshtein_distance s1 s2 := by
    intro c
    simp only [tickedRun, levenshtein_distance]
    rw [tickedOuterLoop_fst]
  exact ⟨key clock, (key clock).trans (key clock').symm⟩

end Compare
